import Mathlib

/-!
# space-cloud (sc-poc): source registry, route helper builders, config loader

A shallow embedding of

* `sc-poc/utils/caddy.go`: `GetByteStringArray`, `GetCaddyMatcherSet`, `GetCaddyHandler`;
* `sc-poc/managers/source/app.go`: `App.Provision`;
* `sc-poc/managers/configman/configloader.go`: `InitializeConfigLoader`, `loadConfig`.

Go maps are association lists read with `mapGet` and written with `mapSet`; a
well-formed Go map has pairwise distinct keys (`mapKeys m` has no duplicates).
A `range` over a map visits the entries in an unspecified order: wherever the
code ranges over a map, the embedding takes the entries as a list, in the
order the loop visits them, and the theorems hold for every such list.
-/

namespace SpaceCloud

/-! ## Go maps with string keys -/

/-- A Go `map[string]V`, as the list of its entries. -/
abbrev GoMap (V : Type) := List (String × V)

/-- Map read `m[k]` in its two-valued form `v, ok := m[k]`. -/
def mapGet {V : Type} : GoMap V → String → Option V
  | [], _ => none
  | (k', v) :: rest, k => if k' = k then some v else mapGet rest k

/-- Map write `m[k] = v`: replaces the entry of `k` when there is one, adds one otherwise. -/
def mapSet {V : Type} : GoMap V → String → V → GoMap V
  | [], k, v => [(k, v)]
  | (k', v') :: rest, k, v => if k' = k then (k, v) :: rest else (k', v') :: mapSet rest k v

/-- The keys of a map. -/
def mapKeys {V : Type} (m : GoMap V) : List String := m.map Prod.fst

/-- Apply `f` to every value of a map, keys untouched. -/
def mapValues {V W : Type} (f : V → W) (m : GoMap V) : GoMap W :=
  m.map (fun e => (e.1, f e.2))

/-! ## JSON documents -/

/-- A JSON document: what a `json.RawMessage` produced by `json.Marshal` denotes. -/
inductive Json where
  | null
  | bool (b : Bool)
  | num (n : Int)
  | str (s : String)
  | arr (items : List Json)
  | obj (fields : List (String × Json))

/-- A Go value of type `interface{}` as `json.Marshal` sees it: either it has a JSON
encoding, or `json.Marshal` returns an error for it (a channel, a function, a complex
number, a NaN). -/
inductive GoValue where
  | json (j : Json)
  | unsupported

/-! ## `sc-poc/utils/caddy.go` -/

/-- A Go `[]string`: the nil slice (`none`) or a slice with its elements, possibly none. -/
abbrev StringSlice := Option (List String)

/-- The length `len(s)` of a slice; the nil slice has length 0. -/
def sliceLen : StringSlice → Nat
  | none => 0
  | some xs => xs.length

/-- `GetByteStringArray`: `json.Marshal` of a `[]string`, which cannot fail; the variadic
call `GetByteStringArray(path...)` hands the slice over as it is, and a nil slice is
encoded as `null`. -/
def GetByteStringArray : StringSlice → Json
  | none => Json.null
  | some xs => Json.arr (xs.map Json.str)

/-- `json.Marshal(headers)` for `headers : map[string][]string`, which cannot fail. -/
def marshalHeaders (headers : GoMap StringSlice) : Json :=
  Json.obj (mapValues GetByteStringArray headers)

/-- `GetCaddyMatcherSet`: the slice `[]caddy.ModuleMap{set}`, a `caddy.ModuleMap` being a
`map[string]json.RawMessage`. -/
def GetCaddyMatcherSet (path : StringSlice) (methods : StringSlice)
    (headers : GoMap StringSlice) : List (GoMap Json) :=
  let set : GoMap Json := [("path", GetByteStringArray path)]
  let set := if sliceLen methods > 0 then mapSet set "method" (GetByteStringArray methods) else set
  let set := if headers.length > 0 then mapSet set "header" (marshalHeaders headers) else set
  [set]

/-- `json.Marshal` of a `map[string]interface{}`: an object with one field per key, or an
error (`none`) when some value has no JSON encoding. -/
def marshalObject : GoMap GoValue → Option (List (String × Json))
  | [] => some []
  | (_, GoValue.unsupported) :: _ => none
  | (k, GoValue.json j) :: rest =>
    match marshalObject rest with
    | none => none
    | some fields => some ((k, j) :: fields)

/-- The map `handler` that `GetCaddyHandler` builds before it marshals it: the
discriminator first, then every entry of `params` written over it, in range order. -/
def handlerMap (handlerName : String) (params : GoMap GoValue) : GoMap GoValue :=
  params.foldl (fun handler kv => mapSet handler kv.1 kv.2)
    [("handler", GoValue.json (Json.str ("sc_" ++ handlerName ++ "_handler")))]

/-- `GetCaddyHandler`: the slice `[]json.RawMessage{data}` where `data, _ := json.Marshal(handler)`;
the error is dropped, and `data` is nil (`none`) when marshalling failed. -/
def GetCaddyHandler (handlerName : String) (params : GoMap GoValue) : List (Option Json) :=
  [(marshalObject (handlerMap handlerName params)).map Json.obj]

/-! ## `sc-poc/managers/source/app.go` -/

/-- Diagnostic identity of a plugin-type-key, the value `GetResourceGVR(key)` returns. -/
structure GVR where
  Group : String
  Version : String
  Resource : String
deriving DecidableEq

/-- Modelled from the spec: the `Source` interface is declared in a file that is not at hand.
A source exposes the provider names it serves (`GetProviders`, called by `Provision`) and
"a priority/ordering key for deterministic tie-breaks"; `id` tells plugin instances apart. -/
structure Source where
  id : String
  providers : List String
  priority : Int
deriving DecidableEq

/-- A module instance `t` returned by `ctx.LoadModuleByID`, seen through the two type
assertions `Provision` makes: `workspace` is `some name` exactly when `t.(Workspace)`
succeeds (`name` is what `GetWorkspaceName` returns), `source` is `some s` exactly when
`t.(Source)` succeeds. A module may pass both, one, or neither. -/
structure Module where
  workspace : Option String
  source : Option Source
deriving DecidableEq

/-- What `Provision` calls and does not define: the module loader of the caddy context and
two helpers of the package. -/
structure Env where
  LoadModuleByID : String → String → Except String Module
  GetResourceGVR : String → GVR
  GetWorkspaceNameFromSource : Source → String

/-- A record written to `a.logger`. -/
inductive LogEntry where
  | warn (msg : String) (gvr : GVR)
  | error (msg : String) (gvr : GVR)
deriving DecidableEq

/-- The internal fields of `App`; `Config` is passed to `Provision` separately, as the list
of its entries in range order. -/
structure App where
  logger : List LogEntry
  sourceMap : GoMap (GoMap (List Source))
  workspaces : List String
deriving DecidableEq

/-- The double index `sourceMap[workspace][provider]`, nil (empty) when either key is absent. -/
def bucket (sm : GoMap (GoMap (List Source))) (workspace provider : String) : List Source :=
  (mapGet ((mapGet sm workspace).getD []) provider).getD []

/-- The statement `a.sourceMap[workspace][provider] = append(a.sourceMap[workspace][provider], source)`.
`Provision` runs it only after it has made sure that `a.sourceMap[workspace]` exists. -/
def register (workspace : String) (source : Source) (sm : GoMap (GoMap (List Source)))
    (provider : String) : GoMap (GoMap (List Source)) :=
  let inner := (mapGet sm workspace).getD []
  mapSet sm workspace (mapSet inner provider ((mapGet inner provider).getD [] ++ [source]))

/-- The body of the inner loop of `Provision`, for one raw plugin config `c` under `key`. -/
def provisionEntry (env : Env) (key : String) (a : App) (c : String) : App :=
  match env.LoadModuleByID key c with
  | Except.error _ =>
    { a with logger := a.logger ++
        [LogEntry.warn "Unable to load module for source" (env.GetResourceGVR key)] }
  | Except.ok t =>
    match t.workspace with
    | some name =>
      if name = "main" ∨ name = "root" then a
      else { a with workspaces := a.workspaces ++ [name] }
    | none =>
      match t.source with
      | none =>
        { a with logger := a.logger ++
            [LogEntry.error "Loaded source is not of a valid type" (env.GetResourceGVR key)] }
      | some source =>
        let workspace := env.GetWorkspaceNameFromSource source
        let sm := if (mapGet a.sourceMap workspace).isNone
          then mapSet a.sourceMap workspace [] else a.sourceMap
        { a with sourceMap := source.providers.foldl (register workspace source) sm }

/-- The inner loop `for _, c := range list`. -/
def provisionList (env : Env) (key : String) (list : List String) (a : App) : App :=
  list.foldl (provisionEntry env key) a

/-- The outer loop `for key, list := range a.Config`, over the entries in range order. -/
def provisionAll (env : Env) (config : List (String × List String)) (a : App) : App :=
  config.foldl (fun a kl => provisionList env kl.1 kl.2 a) a

/-- Modelled from the spec: `Sources.Sort` is defined in a file that is not at hand. Step of
the stable sort "by the Source's ordering key": `s`, which stood before every element of
the list, goes in front of the first element whose key is not smaller. -/
def insertSource (s : Source) : List Source → List Source
  | [] => [s]
  | t :: rest => if s.priority ≤ t.priority then s :: t :: rest else t :: insertSource s rest

/-- Modelled from the spec: `Sources.Sort` is defined in a file that is not at hand. "Sort
every per-(workspace, provider) SourcesList by the Source's ordering key ... entries with
equal keys retain relative insertion order (stable sort)"; keys ascend. (`Sort` is a
reserved word, hence the name.) -/
def SourcesSort : List Source → List Source
  | [] => []
  | s :: rest => insertSource s (SourcesSort rest)

/-- The closing loops of `Provision`: `sources.Sort()` on every bucket of every workspace. -/
def sortAll (sm : GoMap (GoMap (List Source))) : GoMap (GoMap (List Source)) :=
  mapValues (mapValues SourcesSort) sm

/-- `App.Provision`: the provisioned app and the returned `error` (`none` is nil). `config`
lists the entries of `a.Config` in the order the `range` visits them. -/
def Provision (env : Env) (config : List (String × List String)) (a : App) :
    App × Option String :=
  let a := { a with sourceMap := [] }
  let a := provisionAll env config a
  ({ a with sourceMap := sortAll a.sourceMap }, none)

/-- The plugin configs in the order `Provision` processes them, each with its key. -/
def processed (config : List (String × List String)) : List (String × String) :=
  config.flatMap (fun kl => kl.2.map (fun c => (kl.1, c)))

/-- The name declared by the entry when it loads and is a workspace declaration. -/
def declaredName (env : Env) (kc : String × String) : Option String :=
  match env.LoadModuleByID kc.1 kc.2 with
  | Except.error _ => none
  | Except.ok t => t.workspace

/-- The source of the entry when it loads, is not a workspace declaration, and is a Source. -/
def loadedSource (env : Env) (kc : String × String) : Option Source :=
  match env.LoadModuleByID kc.1 kc.2 with
  | Except.error _ => none
  | Except.ok t =>
    match t.workspace with
    | some _ => none
    | none => t.source

/-- The names of the successfully loaded workspace declarations, in processing order. -/
def declaredNames (env : Env) (config : List (String × List String)) : List String :=
  (processed config).filterMap (declaredName env)

/-- The successfully loaded sources that are not workspace declarations, in processing order. -/
def loadedSources (env : Env) (config : List (String × List String)) : List Source :=
  (processed config).filterMap (loadedSource env)

/-- An entry `Provision` registers: it loads, and is a workspace declaration or a Source. -/
def isGood (env : Env) (key : String) (c : String) : Bool :=
  match env.LoadModuleByID key c with
  | Except.error _ => false
  | Except.ok t => t.workspace.isSome || t.source.isSome

/-- The sources appended to bucket `(w, p)`, in the order of the appends: each loaded
source of workspace `w` once per occurrence of `p` among its providers. -/
def appended (env : Env) (config : List (String × List String)) (w p : String) : List Source :=
  (loadedSources env config).flatMap (fun s =>
    if env.GetWorkspaceNameFromSource s = w then
      (s.providers.filter (fun q => decide (q = p))).map (fun _ => s)
    else [])

/-! ## `sc-poc/managers/configman/configloader.go` -/

/-- `ConfigLoader`; the interval is a `time.Duration`, a count of nanoseconds. -/
structure ConfigLoader (Adapter : Type) where
  adapter : Adapter
  debounceInterval : Int
deriving DecidableEq

/-- What `InitializeConfigLoader` calls and does not define. -/
structure InitEnv (Adapter : Type) where
  GetString : String → String
  ParseDuration : String → Except String Int
  MakeFileAdapter : String → Adapter
  MakeK8sAdapter : Except String Adapter

/-- `InitializeConfigLoader`: `Except.error err` is the return `nil, err`, `Except.ok l` the
return `l, nil`. -/
def InitializeConfigLoader {Adapter : Type} (env : InitEnv Adapter) :
    Except String (ConfigLoader Adapter) :=
  let configAdapter := env.GetString "config.adapter"
  let path := env.GetString "config.path"
  match env.ParseDuration (env.GetString "config.debounce-interval") with
  | Except.error err => Except.error err
  | Except.ok debounceInterval =>
    if configAdapter = "file" then
      Except.ok { adapter := env.MakeFileAdapter path, debounceInterval := debounceInterval }
    else if configAdapter = "k8s" then
      match env.MakeK8sAdapter with
      | Except.error err => Except.error err
      | Except.ok ad => Except.ok { adapter := ad, debounceInterval := debounceInterval }
    else Except.error "invalid adapter specified"

/-- What `loadConfig` calls and does not define. `Load raw force e` is the serving engine
after `caddy.Load(raw, force)` ran on engine `e`; the error `caddy.Load` returns is
dropped by `loadConfig`. -/
structure ReloadEnv (ConfigType CaddyConfig Engine : Type) where
  PrepareConfig : ConfigType → Except String CaddyConfig
  MarshalIndent : CaddyConfig → Except String String
  Load : String → Bool → Engine → Engine

/-- The world `loadConfig` acts on: the serving engine, which holds the active
configuration, the activation calls made so far, and the lines printed. -/
structure World (Engine : Type) where
  engine : Engine
  loadCalls : List (String × Bool)
  stdout : List String

/-- `loadConfig`. -/
def loadConfig {ConfigType CaddyConfig Engine : Type}
    (env : ReloadEnv ConfigType CaddyConfig Engine) (cfg : ConfigType) (w : World Engine) :
    World Engine :=
  match env.PrepareConfig cfg with
  | Except.error err =>
    { w with stdout := w.stdout ++ ["Error watching changes:  " ++ err] }
  | Except.ok caddyCfg =>
    match env.MarshalIndent caddyCfg with
    | Except.error err =>
      { w with stdout := w.stdout ++ ["Error watching changes:  " ++ err] }
    | Except.ok raw =>
      { w with engine := env.Load raw false w.engine, loadCalls := w.loadCalls ++ [(raw, false)] }

/-! ## Concrete environments, on which the definitions are evaluated -/

/-- A loader for examples: the config "bad" fails to load; under the key "workspace" a
config loads as the workspace declaration of that name; under "hybrid" as a module that is
both a workspace declaration and a Source; under "plain" as a module that is neither; under
any other key as a Source serving "http", its key the length of the config. -/
def demoEnv : Env where
  LoadModuleByID := fun key c =>
    if c = "bad" then Except.error "unknown module"
    else if key = "workspace" then Except.ok ⟨some c, none⟩
    else if key = "hybrid" then Except.ok ⟨some c, some ⟨c, ["http"], 0⟩⟩
    else if key = "plain" then Except.ok ⟨none, none⟩
    else Except.ok ⟨none, some ⟨c, ["http"], c.length⟩⟩
  GetResourceGVR := fun key => ⟨"core.space-cloud.io", "v1alpha1", key⟩
  GetWorkspaceNameFromSource := fun s => if s.id = "zz" then "dev" else "main"

/-- An app whose internal fields are all empty. -/
def emptyApp : App := ⟨[], [], []⟩

/-- A config with two plugin-type-keys, its entries in one range order. -/
def twoKeys : List (String × List String) := [("jwt", ["a"]), ("opa", ["b"])]

/-- The config `twoKeys`, its entries in the other range order. -/
def twoKeysSwapped : List (String × List String) := [("opa", ["b"]), ("jwt", ["a"])]

/-- A config with three plugin configs under "jwt", the second of which fails to load, and
two workspace declarations. -/
def mixedConfig : List (String × List String) :=
  [("jwt", ["a", "bad", "bb"]), ("workspace", ["dev", "qa"])]

/-- A parameter map with two JSON values and no parameter named "handler". -/
def demoParams : GoMap GoValue :=
  [("realm", GoValue.json (Json.str "admin")), ("strict", GoValue.json (Json.bool true))]

/-- A duration parser for examples: it knows "1s" and "500ms" and rejects the rest. -/
def demoParseDuration (s : String) : Except String Int :=
  if s = "1s" then Except.ok 1000000000
  else if s = "500ms" then Except.ok 500000000
  else Except.error "time: invalid duration"

/-- Settings for examples: adapter name `adapter`, debounce interval `interval`; the file
adapter is its path, the cluster adapter cannot be made. -/
def demoInitEnv (adapter interval : String) : InitEnv String where
  GetString := fun k =>
    if k = "config.adapter" then adapter
    else if k = "config.path" then "/config"
    else if k = "config.debounce-interval" then interval
    else ""
  ParseDuration := demoParseDuration
  MakeFileAdapter := fun path => path
  MakeK8sAdapter := Except.error "unable to load in-cluster configuration"

/-- A compiler and engine for examples: the raw config "broken" does not compile, the
compiled config "cyclic" does not serialize, and the engine holds the last activated bytes. -/
def demoReloadEnv : ReloadEnv String String String where
  PrepareConfig := fun cfg =>
    if cfg = "broken" then Except.error "invalid config" else Except.ok cfg
  MarshalIndent := fun c =>
    if c = "cyclic" then Except.error "json: unsupported value" else Except.ok ("json:" ++ c)
  Load := fun raw _ _ => raw

/-- A world for examples: the engine serves "old"; nothing was activated or printed yet. -/
def demoWorld : World String := ⟨"old", [], []⟩

/-! ## Lemmas on Go maps -/

theorem mapGet_mapSet {V : Type} (m : GoMap V) (k k' : String) (v : V) :
    mapGet (mapSet m k v) k' = if k = k' then some v else mapGet m k' := by
  induction m with
  | nil => simp [mapSet, mapGet]
  | cons e rest ih =>
    obtain ⟨k0, v0⟩ := e
    by_cases h0 : k0 = k
    · subst h0
      by_cases h1 : k0 = k' <;> simp [mapSet, mapGet, h1]
    · by_cases h1 : k0 = k'
      · subst h1
        simp [mapSet, mapGet, h0, Ne.symm h0]
      · simp [mapSet, mapGet, h0, h1, ih]

theorem mem_mapKeys_mapSet {V : Type} (m : GoMap V) (k k' : String) (v : V) :
    k' ∈ mapKeys (mapSet m k v) ↔ k' = k ∨ k' ∈ mapKeys m := by
  induction m with
  | nil => simp [mapSet, mapKeys]
  | cons e rest ih =>
    obtain ⟨k0, v0⟩ := e
    by_cases h0 : k0 = k
    · subst h0
      simp [mapSet, mapKeys]
    · have ih' : k' ∈ List.map Prod.fst (mapSet rest k v) ↔ k' = k ∨ k' ∈ List.map Prod.fst rest := ih
      simp only [mapSet, h0, if_false, mapKeys, List.map_cons, List.mem_cons, ih']
      tauto

theorem mapGet_mapValues {V W : Type} (f : V → W) (m : GoMap V) (k : String) :
    mapGet (mapValues f m) k = (mapGet m k).map f := by
  induction m with
  | nil => simp [mapValues, mapGet]
  | cons e rest ih =>
    obtain ⟨k0, v0⟩ := e
    have ih' : mapGet (List.map (fun e => (e.1, f e.2)) rest) k = (mapGet rest k).map f := ih
    by_cases h0 : k0 = k
    · simp [mapValues, mapGet, h0]
    · simp [mapValues, mapGet, h0, ih']

theorem mem_mapSet {V : Type} (m : GoMap V) (k : String) (v : V) (e : String × V)
    (h : e ∈ mapSet m k v) : e = (k, v) ∨ e ∈ m := by
  induction m with
  | nil => simpa [mapSet] using h
  | cons e0 rest ih =>
    obtain ⟨k0, v0⟩ := e0
    by_cases h0 : k0 = k
    · simp only [mapSet, h0, if_true, List.mem_cons] at h
      rcases h with h | h
      · exact Or.inl h
      · exact Or.inr (List.mem_cons_of_mem _ h)
    · simp only [mapSet, h0, if_false, List.mem_cons] at h
      rcases h with h | h
      · exact Or.inr (by simp [h])
      · rcases ih h with h' | h'
        · exact Or.inl h'
        · exact Or.inr (List.mem_cons_of_mem _ h')

theorem nodup_mapKeys_mapSet {V : Type} (m : GoMap V) (k : String) (v : V)
    (h : (mapKeys m).Nodup) : (mapKeys (mapSet m k v)).Nodup := by
  induction m with
  | nil => simp [mapSet, mapKeys]
  | cons e0 rest ih =>
    obtain ⟨k0, v0⟩ := e0
    have h' : k0 ∉ mapKeys rest ∧ (mapKeys rest).Nodup := by
      simpa [mapKeys] using h
    by_cases h0 : k0 = k
    · subst h0
      simpa [mapSet, mapKeys] using h
    · have hk : k0 ∉ mapKeys (mapSet rest k v) := by
        rw [mem_mapKeys_mapSet]
        exact fun hc => hc.elim h0 h'.1
      have hn := ih h'.2
      simp only [mapSet, h0, if_false]
      exact List.nodup_cons.mpr ⟨hk, hn⟩

/-! ## The handler builder -/

theorem mem_mapKeys_foldl_mapSet {V : Type} (params m : GoMap V) (k : String) :
    k ∈ mapKeys (params.foldl (fun handler kv => mapSet handler kv.1 kv.2) m) ↔
      k ∈ mapKeys m ∨ k ∈ mapKeys params := by
  induction params generalizing m with
  | nil => simp [mapKeys]
  | cons e rest ih =>
    have hr : k ∈ mapKeys (e :: rest) ↔ k = e.1 ∨ k ∈ mapKeys rest := by simp [mapKeys]
    rw [List.foldl_cons, ih, mem_mapKeys_mapSet, hr]
    tauto

theorem nodup_mapKeys_foldl_mapSet {V : Type} (params m : GoMap V) (h : (mapKeys m).Nodup) :
    (mapKeys (params.foldl (fun handler kv => mapSet handler kv.1 kv.2) m)).Nodup := by
  induction params generalizing m with
  | nil => simpa using h
  | cons e rest ih =>
    rw [List.foldl_cons]
    exact ih _ (nodup_mapKeys_mapSet m e.1 e.2 h)

theorem mem_foldl_mapSet {V : Type} (params m : GoMap V) (e : String × V)
    (h : e ∈ params.foldl (fun handler kv => mapSet handler kv.1 kv.2) m) :
    e ∈ m ∨ e ∈ params := by
  induction params generalizing m with
  | nil => exact Or.inl (by simpa using h)
  | cons e0 rest ih =>
    rw [List.foldl_cons] at h
    rcases ih _ h with h1 | h1
    · rcases mem_mapSet m e0.1 e0.2 e h1 with h2 | h2
      · exact Or.inr (by simp [h2])
      · exact Or.inl h2
    · exact Or.inr (List.mem_cons_of_mem _ h1)

theorem mapGet_foldl_mapSet_of_not_mem {V : Type} (params m : GoMap V) (k : String)
    (h : k ∉ mapKeys params) :
    mapGet (params.foldl (fun handler kv => mapSet handler kv.1 kv.2) m) k = mapGet m k := by
  induction params generalizing m with
  | nil => rfl
  | cons e rest ih =>
    have h' : k ≠ e.1 ∧ k ∉ mapKeys rest := by simpa [mapKeys] using h
    rw [List.foldl_cons, ih _ h'.2, mapGet_mapSet]
    simp [Ne.symm h'.1]

theorem mapGet_foldl_mapSet_of_mem {V : Type} (params m : GoMap V) (k : String) (v : V)
    (hn : (mapKeys params).Nodup) (h : (k, v) ∈ params) :
    mapGet (params.foldl (fun handler kv => mapSet handler kv.1 kv.2) m) k = some v := by
  induction params generalizing m with
  | nil => simp at h
  | cons e rest ih =>
    have h' : e.1 ∉ mapKeys rest ∧ (mapKeys rest).Nodup := by simpa [mapKeys] using hn
    rw [List.foldl_cons]
    rcases List.mem_cons.mp h with h1 | h1
    · subst h1
      rw [mapGet_foldl_mapSet_of_not_mem _ _ _ h'.1, mapGet_mapSet]
      simp
    · exact ih _ h'.2 h1

theorem marshalObject_supported (m : GoMap GoValue)
    (h : ∀ e ∈ m, e.2 ≠ GoValue.unsupported) :
    ∃ fields, marshalObject m = some fields ∧ mapKeys fields = mapKeys m ∧
      ∀ k j, mapGet m k = some (GoValue.json j) → mapGet fields k = some j := by
  induction m with
  | nil => exact ⟨[], rfl, rfl, by simp [mapGet]⟩
  | cons e rest ih =>
    obtain ⟨k0, v0⟩ := e
    obtain ⟨fields, hf, hk, hg⟩ := ih (fun e he => h e (List.mem_cons_of_mem _ he))
    cases v0 with
    | unsupported => exact absurd rfl (h (k0, GoValue.unsupported) (List.mem_cons_self _ _))
    | json j0 =>
      refine ⟨(k0, j0) :: fields, by simp [marshalObject, hf], ?_, ?_⟩
      · have hk' : List.map Prod.fst fields = List.map Prod.fst rest := hk
        simp [mapKeys, hk']
      · intro k j hkj
        by_cases h0 : k0 = k
        · simp only [mapGet, h0, if_true, Option.some.injEq, GoValue.json.injEq] at hkj
          simp [mapGet, h0, hkj]
        · simp only [mapGet, h0, if_false] at hkj
          simp [mapGet, h0, hg k j hkj]

/-! ## The provisioning loops -/

theorem provisionAll_eq_foldl (env : Env) (config : List (String × List String)) (a : App) :
    provisionAll env config a =
      (processed config).foldl (fun a kc => provisionEntry env kc.1 a kc.2) a := by
  induction config generalizing a with
  | nil => rfl
  | cons kl rest ih =>
    have hp : processed (kl :: rest) = kl.2.map (fun c => (kl.1, c)) ++ processed rest := by
      simp [processed]
    have hl : provisionList env kl.1 kl.2 a =
        (kl.2.map (fun c => (kl.1, c))).foldl (fun a kc => provisionEntry env kc.1 a kc.2) a := by
      simp [provisionList, List.foldl_map]
    have hs : provisionAll env (kl :: rest) a = provisionAll env rest (provisionList env kl.1 kl.2 a) := by
      simp [provisionAll]
    rw [hs, ih, hp, List.foldl_append, hl]

/-- The names one entry adds to the workspace list. -/
theorem provisionEntry_workspaces (env : Env) (key c : String) (a : App) :
    (provisionEntry env key a c).workspaces = a.workspaces ++
      ((declaredName env (key, c)).toList.filter
        (fun n => decide (n ≠ "main" ∧ n ≠ "root"))) := by
  unfold provisionEntry declaredName
  cases hl : env.LoadModuleByID key c with
  | error e => simp
  | ok t =>
    cases hw : t.workspace with
    | none =>
      cases hs : t.source <;> simp [hw, hs]
    | some name =>
      by_cases hr : name = "main" ∨ name = "root"
      · have hr' : ¬ (¬ name = "main" ∧ ¬ name = "root") := by tauto
        simp [hw, hr, hr']
      · have hr' : ¬ name = "main" ∧ ¬ name = "root" := by tauto
        simp [hw, hr, hr']

theorem foldl_provisionEntry_workspaces (env : Env) (l : List (String × String)) (a : App) :
    (l.foldl (fun a kc => provisionEntry env kc.1 a kc.2) a).workspaces = a.workspaces ++
      (l.filterMap (declaredName env)).filter (fun n => decide (n ≠ "main" ∧ n ≠ "root")) := by
  induction l generalizing a with
  | nil => simp
  | cons kc rest ih =>
    rw [List.foldl_cons, ih, provisionEntry_workspaces, List.filterMap_cons]
    cases hd : declaredName env kc with
    | none => simp [hd]
    | some n =>
      have hkc : declaredName env (kc.1, kc.2) = some n := hd
      simp [hkc, List.filter_cons]
      split <;> simp

theorem bucket_register (workspace : String) (source : Source)
    (sm : GoMap (GoMap (List Source))) (provider w p : String) :
    bucket (register workspace source sm provider) w p =
      bucket sm w p ++ (if workspace = w ∧ provider = p then [source] else []) := by
  unfold bucket register
  by_cases hw : workspace = w
  · subst hw
    by_cases hp : provider = p
    · subst hp
      simp [mapGet_mapSet]
    · simp [mapGet_mapSet, hp]
  · simp [mapGet_mapSet, hw]

theorem bucket_foldl_register (workspace : String) (source : Source) (providers : List String)
    (sm : GoMap (GoMap (List Source))) (w p : String) :
    bucket (providers.foldl (register workspace source) sm) w p =
      bucket sm w p ++ (if workspace = w then
        (providers.filter (fun q => decide (q = p))).map (fun _ => source) else []) := by
  induction providers generalizing sm with
  | nil => simp
  | cons q rest ih =>
    rw [List.foldl_cons, ih, bucket_register]
    by_cases hw : workspace = w
    · by_cases hq : q = p
      · simp [hw, hq]
      · simp [hw, hq]
    · simp [hw]

theorem bucket_ensure (sm : GoMap (GoMap (List Source))) (workspace w p : String) :
    bucket (if (mapGet sm workspace).isNone then mapSet sm workspace [] else sm) w p =
      bucket sm w p := by
  cases hg : mapGet sm workspace with
  | some inner => simp
  | none =>
    by_cases hw : workspace = w
    · subst hw
      simp [bucket, mapGet_mapSet, hg, mapGet]
    · simp [bucket, mapGet_mapSet, hw]

/-- The sources one entry appends to bucket `(w, p)`. -/
theorem provisionEntry_bucket (env : Env) (key c : String) (a : App) (w p : String) :
    bucket (provisionEntry env key a c).sourceMap w p = bucket a.sourceMap w p ++
      ((loadedSource env (key, c)).toList.flatMap (fun s =>
        if env.GetWorkspaceNameFromSource s = w then
          (s.providers.filter (fun q => decide (q = p))).map (fun _ => s)
        else [])) := by
  unfold provisionEntry loadedSource
  cases hl : env.LoadModuleByID key c with
  | error e => simp
  | ok t =>
    cases hw : t.workspace with
    | some name =>
      by_cases hr : name = "main" ∨ name = "root" <;> simp [hw, hr]
    | none =>
      cases hs : t.source with
      | none => simp [hw, hs]
      | some source =>
        simp only [hw, hs, Option.toList, List.flatMap_cons, List.flatMap_nil, List.append_nil]
        rw [bucket_foldl_register, bucket_ensure]

theorem foldl_provisionEntry_bucket (env : Env) (l : List (String × String)) (a : App)
    (w p : String) :
    bucket (l.foldl (fun a kc => provisionEntry env kc.1 a kc.2) a).sourceMap w p =
      bucket a.sourceMap w p ++ (l.filterMap (loadedSource env)).flatMap (fun s =>
        if env.GetWorkspaceNameFromSource s = w then
          (s.providers.filter (fun q => decide (q = p))).map (fun _ => s)
        else []) := by
  induction l generalizing a with
  | nil => simp
  | cons kc rest ih =>
    rw [List.foldl_cons, ih, provisionEntry_bucket, List.filterMap_cons]
    cases hd : loadedSource env kc with
    | none =>
      have hkc : loadedSource env (kc.1, kc.2) = none := hd
      simp [hkc]
    | some s =>
      have hkc : loadedSource env (kc.1, kc.2) = some s := hd
      simp [hkc]

theorem bucket_nil (w p : String) : bucket [] w p = [] := rfl

theorem bucket_sortAll (sm : GoMap (GoMap (List Source))) (w p : String) :
    bucket (sortAll sm) w p = SourcesSort (bucket sm w p) := by
  unfold bucket sortAll
  rw [mapGet_mapValues]
  cases hg : mapGet sm w with
  | none => simp [mapGet, SourcesSort]
  | some inner =>
    simp only [Option.map_some', Option.getD_some]
    rw [mapGet_mapValues]
    cases hi : mapGet inner p with
    | none => simp [SourcesSort]
    | some ss => simp

/-- The bucket `(w, p)` when the two loops over the config are done, before the sort. -/
theorem bucket_provisionAll (env : Env) (config : List (String × List String)) (a : App)
    (w p : String) :
    bucket (provisionAll env config { a with sourceMap := [] }).sourceMap w p =
      appended env config w p := by
  rw [provisionAll_eq_foldl, foldl_provisionEntry_bucket]
  simp [bucket_nil, appended, loadedSources]

theorem bucket_Provision (env : Env) (config : List (String × List String)) (a : App)
    (w p : String) :
    bucket (Provision env config a).1.sourceMap w p =
      SourcesSort (appended env config w p) := by
  have h : (Provision env config a).1.sourceMap =
      sortAll (provisionAll env config { a with sourceMap := [] }).sourceMap := rfl
  rw [h, bucket_sortAll, bucket_provisionAll]

theorem workspaces_Provision (env : Env) (config : List (String × List String)) (a : App) :
    (Provision env config a).1.workspaces = a.workspaces ++
      (declaredNames env config).filter (fun n => decide (n ≠ "main" ∧ n ≠ "root")) := by
  have h : (Provision env config a).1.workspaces =
      (provisionAll env config { a with sourceMap := [] }).workspaces := rfl
  rw [h, provisionAll_eq_foldl, foldl_provisionEntry_workspaces]
  rfl

/-- Another range order over the same config appends the same sources to a bucket. -/
theorem appended_perm (env : Env) (config config' : List (String × List String))
    (h : List.Perm config' config) (w p : String) :
    List.Perm (appended env config' w p) (appended env config w p) := by
  unfold appended loadedSources processed
  exact ((h.flatMap_right _).filterMap _).flatMap_right _

theorem mem_processed (config : List (String × List String)) (key c : String)
    (list : List String) (hk : (key, list) ∈ config) (hc : c ∈ list) :
    (key, c) ∈ processed config := by
  unfold processed
  rw [List.mem_flatMap]
  exact ⟨(key, list), hk, List.mem_map.mpr ⟨c, hc, rfl⟩⟩

theorem provisionEntry_logger (env : Env) (key c : String) (a : App) :
    (provisionEntry env key a c).logger.length =
      a.logger.length + (if isGood env key c then 0 else 1) := by
  unfold provisionEntry isGood
  cases hl : env.LoadModuleByID key c with
  | error e => simp
  | ok t =>
    cases hw : t.workspace with
    | some name =>
      by_cases hr : name = "main" ∨ name = "root" <;> simp [hw, hr]
    | none =>
      cases hs : t.source <;> simp [hw, hs]

theorem foldl_provisionEntry_logger (env : Env) (l : List (String × String)) (a : App) :
    (l.foldl (fun a kc => provisionEntry env kc.1 a kc.2) a).logger.length =
      a.logger.length + (l.filter (fun kc => !isGood env kc.1 kc.2)).length := by
  induction l generalizing a with
  | nil => simp
  | cons kc rest ih =>
    rw [List.foldl_cons, ih, provisionEntry_logger]
    cases hg : isGood env kc.1 kc.2
    · simp [hg]
      omega
    · simp [hg]

theorem logger_Provision (env : Env) (config : List (String × List String)) (a : App) :
    (Provision env config a).1.logger.length =
      a.logger.length + ((processed config).filter (fun kc => !isGood env kc.1 kc.2)).length := by
  have h : (Provision env config a).1.logger =
      (provisionAll env config { a with sourceMap := [] }).logger := rfl
  rw [h, provisionAll_eq_foldl, foldl_provisionEntry_logger]

/-! ## The sort of a bucket -/

theorem perm_insertSource (s : Source) (l : List Source) :
    List.Perm (insertSource s l) (s :: l) := by
  induction l with
  | nil => exact List.Perm.refl _
  | cons t rest ih =>
    by_cases h : s.priority ≤ t.priority
    · simp [insertSource, h]
    · simp only [insertSource, h, if_false]
      exact (List.Perm.cons t ih).trans (List.Perm.swap s t rest)

theorem perm_SourcesSort (l : List Source) : List.Perm (SourcesSort l) l := by
  induction l with
  | nil => exact List.Perm.refl _
  | cons s rest ih =>
    exact (perm_insertSource s (SourcesSort rest)).trans (List.Perm.cons s ih)

theorem sorted_insertSource (s : Source) (l : List Source)
    (h : l.Pairwise (fun x y => x.priority ≤ y.priority)) :
    (insertSource s l).Pairwise (fun x y => x.priority ≤ y.priority) := by
  induction l with
  | nil => simp [insertSource]
  | cons t rest ih =>
    have ht := List.pairwise_cons.mp h
    by_cases hst : s.priority ≤ t.priority
    · simp only [insertSource, hst, if_true]
      refine List.pairwise_cons.mpr ⟨?_, h⟩
      intro y hy
      rcases List.mem_cons.mp hy with hy | hy
      · exact hy ▸ hst
      · exact le_trans hst (ht.1 y hy)
    · simp only [insertSource, hst, if_false]
      refine List.pairwise_cons.mpr ⟨?_, ih ht.2⟩
      intro y hy
      rcases List.mem_cons.mp ((perm_insertSource s rest).subset hy) with hy | hy
      · exact hy ▸ le_of_lt (lt_of_not_ge hst)
      · exact ht.1 y hy

theorem sorted_SourcesSort (l : List Source) :
    (SourcesSort l).Pairwise (fun x y => x.priority ≤ y.priority) := by
  induction l with
  | nil => simp [SourcesSort]
  | cons s rest ih => exact sorted_insertSource s _ ih

theorem filter_insertSource (s : Source) (l : List Source) (k : Int) :
    (insertSource s l).filter (fun t => decide (t.priority = k)) =
      (s :: l).filter (fun t => decide (t.priority = k)) := by
  induction l with
  | nil => simp [insertSource]
  | cons t rest ih =>
    by_cases hst : s.priority ≤ t.priority
    · simp [insertSource, hst]
    · simp only [insertSource, hst, if_false]
      by_cases hs : s.priority = k
      · have htk : t.priority ≠ k := by
          intro hc
          exact hst (by omega)
        rw [List.filter_cons_of_neg (by simpa using htk), ih,
          List.filter_cons_of_pos (by simpa using hs),
          List.filter_cons_of_pos (by simpa using hs),
          List.filter_cons_of_neg (by simpa using htk)]
      · by_cases htk : t.priority = k
        · rw [List.filter_cons_of_pos (by simpa using htk), ih,
            List.filter_cons_of_neg (by simpa using hs),
            List.filter_cons_of_neg (by simpa using hs),
            List.filter_cons_of_pos (by simpa using htk)]
        · rw [List.filter_cons_of_neg (by simpa using htk), ih,
            List.filter_cons_of_neg (by simpa using hs),
            List.filter_cons_of_neg (by simpa using hs),
            List.filter_cons_of_neg (by simpa using htk)]

theorem filter_SourcesSort (l : List Source) (k : Int) :
    (SourcesSort l).filter (fun t => decide (t.priority = k)) =
      l.filter (fun t => decide (t.priority = k)) := by
  induction l with
  | nil => rfl
  | cons s rest ih =>
    have h : SourcesSort (s :: rest) = insertSource s (SourcesSort rest) := rfl
    rw [h, filter_insertSource]
    by_cases hs : s.priority = k
    · rw [List.filter_cons_of_pos (by simpa using hs), ih,
        List.filter_cons_of_pos (by simpa using hs)]
    · rw [List.filter_cons_of_neg (by simpa using hs), ih,
        List.filter_cons_of_neg (by simpa using hs)]

/-! ## Entries that are skipped -/

theorem provisionEntry_congr (env : Env) (key c : String) (a b : App)
    (hsm : a.sourceMap = b.sourceMap) (hws : a.workspaces = b.workspaces) :
    (provisionEntry env key a c).sourceMap = (provisionEntry env key b c).sourceMap ∧
      (provisionEntry env key a c).workspaces = (provisionEntry env key b c).workspaces := by
  unfold provisionEntry
  cases hl : env.LoadModuleByID key c with
  | error e => simp [hsm, hws]
  | ok t =>
    cases hw : t.workspace with
    | some name =>
      by_cases hr : name = "main" ∨ name = "root" <;> simp [hw, hr, hsm, hws]
    | none =>
      cases hs : t.source <;> simp [hw, hs, hsm, hws]

theorem provisionEntry_skip (env : Env) (key c : String) (a : App)
    (h : isGood env key c = false) :
    (provisionEntry env key a c).sourceMap = a.sourceMap ∧
      (provisionEntry env key a c).workspaces = a.workspaces := by
  unfold isGood at h
  unfold provisionEntry
  cases hl : env.LoadModuleByID key c with
  | error e => simp
  | ok t =>
    rw [hl] at h
    cases hw : t.workspace with
    | some name => simp [hw] at h
    | none =>
      cases hs : t.source with
      | some src => simp [hw, hs] at h
      | none => simp [hw, hs]

theorem provisionList_filter (env : Env) (key : String) (list : List String) (a b : App)
    (hsm : a.sourceMap = b.sourceMap) (hws : a.workspaces = b.workspaces) :
    (provisionList env key (list.filter (isGood env key)) a).sourceMap =
        (provisionList env key list b).sourceMap ∧
      (provisionList env key (list.filter (isGood env key)) a).workspaces =
        (provisionList env key list b).workspaces := by
  induction list generalizing a b with
  | nil => exact ⟨hsm, hws⟩
  | cons c rest ih =>
    cases hg : isGood env key c with
    | true =>
      have hc := provisionEntry_congr env key c a b hsm hws
      rw [List.filter_cons_of_pos hg]
      exact ih _ _ hc.1 hc.2
    | false =>
      have hk := provisionEntry_skip env key c b hg
      rw [List.filter_cons_of_neg (by simp [hg])]
      exact ih _ _ (hsm.trans hk.1.symm) (hws.trans hk.2.symm)

theorem provisionAll_filter (env : Env) (config : List (String × List String)) (a b : App)
    (hsm : a.sourceMap = b.sourceMap) (hws : a.workspaces = b.workspaces) :
    (provisionAll env (config.map (fun kl => (kl.1, kl.2.filter (isGood env kl.1)))) a).sourceMap
        = (provisionAll env config b).sourceMap ∧
      (provisionAll env (config.map (fun kl => (kl.1, kl.2.filter (isGood env kl.1)))) a).workspaces
        = (provisionAll env config b).workspaces := by
  induction config generalizing a b with
  | nil => exact ⟨hsm, hws⟩
  | cons kl rest ih =>
    have hl := provisionList_filter env kl.1 kl.2 a b hsm hws
    exact ih _ _ hl.1 hl.2

/-! ## Claims on `sc-poc/utils/caddy.go` -/

/-- C1: `GetCaddyMatcherSet` returns exactly one matcher map, whose keys are pairwise
distinct; the map always has the key "path"; it has the key "method" exactly when at least
one method was supplied, the key "header" exactly when the header map has at least one
entry, and no key besides these three. A call with paths only (the method slice nil or
empty, the header map empty) yields the map whose one entry is "path" with the marshalled
path list. -/
theorem GetCaddyMatcherSet_keys (path methods : StringSlice) (headers : GoMap StringSlice) :
    ∃ set, GetCaddyMatcherSet path methods headers = [set] ∧
      (mapKeys set).Nodup ∧
      mapGet set "path" = some (GetByteStringArray path) ∧
      ("method" ∈ mapKeys set ↔ 0 < sliceLen methods) ∧
      ("header" ∈ mapKeys set ↔ 0 < headers.length) ∧
      (∀ k ∈ mapKeys set, k = "path" ∨ k = "method" ∨ k = "header") ∧
      GetCaddyMatcherSet path none [] = [[("path", GetByteStringArray path)]] ∧
      GetCaddyMatcherSet path (some []) [] = [[("path", GetByteStringArray path)]] := by
  have hnil : GetCaddyMatcherSet path none [] = [[("path", GetByteStringArray path)]] := rfl
  have hempty : GetCaddyMatcherSet path (some []) [] = [[("path", GetByteStringArray path)]] :=
    rfl
  refine ⟨_, rfl, ?_⟩
  by_cases hm : 0 < sliceLen methods <;> by_cases hh : 0 < headers.length <;>
    simp [hm, hh, hnil, hempty, mapSet, mapKeys, mapGet]

/-- C5, as stated, fails: with a parameter named "handler" the object's "handler" field is
the supplied value and not the namespaced handler name; and with a parameter value that
`json.Marshal` cannot encode, the one element returned is nil, not a JSON object. -/
theorem GetCaddyHandler_counterexample :
    GetCaddyHandler "auth" [("handler", GoValue.json (Json.str "x"))]
        = [some (Json.obj [("handler", Json.str "x")])] ∧
      Json.str "x" ≠ Json.str ("sc_" ++ "auth" ++ "_handler") ∧
      GetCaddyHandler "auth" [("done", GoValue.unsupported)] = [none] := by
  refine ⟨rfl, ?_, rfl⟩
  intro h
  have h' := Json.str.inj h
  exact absurd h' (by decide)

/-- C5, amended: for every handler name and every parameter map (pairwise distinct keys)
whose values all have a JSON encoding, `GetCaddyHandler` returns exactly one JSON object;
the object holds every supplied parameter name with its supplied value; its fields are
"handler" and the supplied parameter names, each once, and no other; and when no parameter
is named "handler", its "handler" field is the string "sc_" + handlerName + "_handler". -/
theorem GetCaddyHandler_fields (handlerName : String) (params : GoMap GoValue)
    (hkeys : (mapKeys params).Nodup)
    (hjson : ∀ e ∈ params, e.2 ≠ GoValue.unsupported) :
    ∃ fields, GetCaddyHandler handlerName params = [some (Json.obj fields)] ∧
      (∀ k j, (k, GoValue.json j) ∈ params → mapGet fields k = some j) ∧
      (∀ k, k ∈ mapKeys fields ↔ k = "handler" ∨ k ∈ mapKeys params) ∧
      (mapKeys fields).Nodup ∧
      ("handler" ∉ mapKeys params →
        mapGet fields "handler" = some (Json.str ("sc_" ++ handlerName ++ "_handler"))) := by
  have hsup : ∀ e ∈ handlerMap handlerName params, e.2 ≠ GoValue.unsupported := by
    intro e he
    rcases mem_foldl_mapSet params _ e he with h1 | h1
    · simp only [List.mem_singleton] at h1
      subst h1
      simp
    · exact hjson e h1
  obtain ⟨fields, hf, hk, hg⟩ := marshalObject_supported _ hsup
  refine ⟨fields, by simp [GetCaddyHandler, hf], ?_, ?_, ?_, ?_⟩
  · intro k j hkj
    exact hg k j (mapGet_foldl_mapSet_of_mem params _ k _ hkeys hkj)
  · intro k
    rw [hk, handlerMap, mem_mapKeys_foldl_mapSet]
    simp [mapKeys]
  · rw [hk]
    exact nodup_mapKeys_foldl_mapSet params _ (by simp [mapKeys])
  · intro hno
    apply hg
    rw [handlerMap, mapGet_foldl_mapSet_of_not_mem params _ _ hno]
    simp [mapGet]

/-- Witness of C5 (amended): the two parameters of `demoParams`, neither named "handler";
the object returned has the three fields "handler", "realm" and "strict". -/
theorem GetCaddyHandler_fields_witness :
    (mapKeys demoParams).Nodup ∧
      (∀ e ∈ demoParams, e.2 ≠ GoValue.unsupported) ∧
      GetCaddyHandler "auth" demoParams =
        [some (Json.obj [("handler", Json.str "sc_auth_handler"),
          ("realm", Json.str "admin"), ("strict", Json.bool true)])] ∧
      ∃ fields, GetCaddyHandler "auth" demoParams = [some (Json.obj fields)] ∧
        (∀ k j, (k, GoValue.json j) ∈ demoParams → mapGet fields k = some j) ∧
        (∀ k, k ∈ mapKeys fields ↔ k = "handler" ∨ k ∈ mapKeys demoParams) ∧
        (mapKeys fields).Nodup ∧
        ("handler" ∉ mapKeys demoParams →
          mapGet fields "handler" = some (Json.str ("sc_" ++ "auth" ++ "_handler"))) :=
  ⟨by decide, by simp [demoParams], rfl,
    GetCaddyHandler_fields "auth" demoParams (by decide) (by simp [demoParams])⟩

/-! ## Claims on `sc-poc/managers/source/app.go` -/

/-- C2: when `Provision` runs on an app whose workspace list is empty, the resulting list
holds neither "main" nor "root"; it holds the name of every successfully loaded workspace
declaration whose name is neither of the two; and it is the list of those names in the
order the declarations were processed. -/
theorem Provision_workspaces_reserved (env : Env) (config : List (String × List String))
    (logger : List LogEntry) (sourceMap : GoMap (GoMap (List Source))) :
    "main" ∉ (Provision env config ⟨logger, sourceMap, []⟩).1.workspaces ∧
      "root" ∉ (Provision env config ⟨logger, sourceMap, []⟩).1.workspaces ∧
      (∀ n ∈ declaredNames env config, n ≠ "main" → n ≠ "root" →
        n ∈ (Provision env config ⟨logger, sourceMap, []⟩).1.workspaces) ∧
      (Provision env config ⟨logger, sourceMap, []⟩).1.workspaces =
        (declaredNames env config).filter (fun n => decide (n ≠ "main" ∧ n ≠ "root")) := by
  have h := workspaces_Provision env config ⟨logger, sourceMap, []⟩
  simp only [List.nil_append] at h
  rw [h]
  refine ⟨?_, ?_, ?_, rfl⟩
  · simp [List.mem_filter]
  · simp [List.mem_filter]
  · intro n hn h1 h2
    simp [List.mem_filter, hn, h1, h2]

/-- C3: `Provision` returns a nil error for every config, whatever fails to load or is of
neither capability. Every entry of the config that loads is registered, whatever the other
entries do: a workspace declaration whose name is neither "main" nor "root" has its name
in the workspace list, and a Source that is no workspace declaration is in the bucket of
its owning workspace for every provider it declares. An entry that fails to load, or is of
neither capability, leaves one log record and nothing else: the inner loop over the list
of one plugin-type-key, started from any app, builds the same source map and workspace
list as over that list with every such entry removed, and so does `Provision` over the
whole config. -/
theorem Provision_skips_bad_entries (env : Env) (config : List (String × List String))
    (a : App) :
    (Provision env config a).2 = none ∧
      (∀ (key c : String) (list : List String) (t : Module),
        (key, list) ∈ config → c ∈ list → env.LoadModuleByID key c = Except.ok t →
        (∀ name, t.workspace = some name → name ≠ "main" → name ≠ "root" →
          name ∈ (Provision env config a).1.workspaces) ∧
        (∀ s, t.workspace = none → t.source = some s → ∀ p ∈ s.providers,
          s ∈ bucket (Provision env config a).1.sourceMap
            (env.GetWorkspaceNameFromSource s) p)) ∧
      (Provision env config a).1.logger.length = a.logger.length +
        ((processed config).filter (fun kc => !isGood env kc.1 kc.2)).length ∧
      (∀ (key : String) (list : List String) (b : App),
        (provisionList env key (list.filter (isGood env key)) b).sourceMap =
            (provisionList env key list b).sourceMap ∧
          (provisionList env key (list.filter (isGood env key)) b).workspaces =
            (provisionList env key list b).workspaces) ∧
      (Provision env (config.map (fun kl => (kl.1, kl.2.filter (isGood env kl.1)))) a).1.sourceMap
        = (Provision env config a).1.sourceMap ∧
      (Provision env (config.map (fun kl => (kl.1, kl.2.filter (isGood env kl.1)))) a).1.workspaces
        = (Provision env config a).1.workspaces := by
  refine ⟨rfl, ?_, logger_Provision env config a, ?_, ?_, ?_⟩
  · intro key c list t hk hc hload
    have hmem := mem_processed config key c list hk hc
    constructor
    · intro name hws h1 h2
      rw [workspaces_Provision]
      apply List.mem_append_right
      rw [List.mem_filter]
      refine ⟨?_, by simp [h1, h2]⟩
      unfold declaredNames
      rw [List.mem_filterMap]
      exact ⟨(key, c), hmem, by simp [declaredName, hload, hws]⟩
    · intro s hws hsrc p hp
      rw [bucket_Provision, (perm_SourcesSort _).mem_iff]
      unfold appended
      rw [List.mem_flatMap]
      refine ⟨s, ?_, by simp [hp]⟩
      unfold loadedSources
      rw [List.mem_filterMap]
      exact ⟨(key, c), hmem, by simp [loadedSource, hload, hws, hsrc]⟩
  · intro key list b
    exact provisionList_filter env key list b b rfl rfl
  · have h := (provisionAll_filter env config { a with sourceMap := [] }
      { a with sourceMap := [] } rfl rfl).1
    simp only [Provision, h]
  · exact (provisionAll_filter env config { a with sourceMap := [] }
      { a with sourceMap := [] } rfl rfl).2

/-- Witness of C3: three plugin configs under "jwt" of which "bad" fails to load, and two
workspace declarations; the two sources and the two names are registered, and one record
is logged. -/
theorem Provision_skips_bad_entries_witness :
    (Provision demoEnv mixedConfig emptyApp).2 = none ∧
      (⟨"a", ["http"], 1⟩ : Source) ∈
        bucket (Provision demoEnv mixedConfig emptyApp).1.sourceMap "main" "http" ∧
      (⟨"bb", ["http"], 2⟩ : Source) ∈
        bucket (Provision demoEnv mixedConfig emptyApp).1.sourceMap "main" "http" ∧
      "dev" ∈ (Provision demoEnv mixedConfig emptyApp).1.workspaces ∧
      "qa" ∈ (Provision demoEnv mixedConfig emptyApp).1.workspaces ∧
      (Provision demoEnv mixedConfig emptyApp).1.logger.length = 1 ∧
      bucket (Provision demoEnv mixedConfig emptyApp).1.sourceMap "main" "http" =
        [⟨"a", ["http"], 1⟩, ⟨"bb", ["http"], 2⟩] ∧
      (Provision demoEnv mixedConfig emptyApp).1.workspaces = ["dev", "qa"] :=
  ⟨(Provision_skips_bad_entries demoEnv mixedConfig emptyApp).1,
    ((Provision_skips_bad_entries demoEnv mixedConfig emptyApp).2.1 "jwt" "a"
      ["a", "bad", "bb"] ⟨none, some ⟨"a", ["http"], 1⟩⟩ (by decide) (by decide) rfl).2
      ⟨"a", ["http"], 1⟩ rfl rfl "http" (by decide),
    ((Provision_skips_bad_entries demoEnv mixedConfig emptyApp).2.1 "jwt" "bb"
      ["a", "bad", "bb"] ⟨none, some ⟨"bb", ["http"], 2⟩⟩ (by decide) (by decide) rfl).2
      ⟨"bb", ["http"], 2⟩ rfl rfl "http" (by decide),
    ((Provision_skips_bad_entries demoEnv mixedConfig emptyApp).2.1 "workspace" "dev"
      ["dev", "qa"] ⟨some "dev", none⟩ (by decide) (by decide) rfl).1
      "dev" rfl (by decide) (by decide),
    ((Provision_skips_bad_entries demoEnv mixedConfig emptyApp).2.1 "workspace" "qa"
      ["dev", "qa"] ⟨some "qa", none⟩ (by decide) (by decide) rfl).1
      "qa" rfl (by decide) (by decide),
    by decide, by decide, by decide⟩

/-- C4: after `Provision`, a source is in the bucket `sourceMap[w][p]` exactly when it is
one of the successfully loaded sources that are not workspace declarations, `w` is its
owning workspace `GetWorkspaceNameFromSource(source)`, and `p` is one of the provider names
its `GetProviders` returns; the bucket is a rearrangement of the appends made to it, one
per occurrence of `p` among the providers of each such source. -/
theorem Provision_buckets (env : Env) (config : List (String × List String)) (a : App)
    (w p : String) :
    (∀ s, s ∈ bucket (Provision env config a).1.sourceMap w p ↔
        s ∈ loadedSources env config ∧ env.GetWorkspaceNameFromSource s = w ∧
          p ∈ s.providers) ∧
      List.Perm (bucket (Provision env config a).1.sourceMap w p)
        (appended env config w p) := by
  rw [bucket_Provision]
  refine ⟨?_, perm_SourcesSort _⟩
  intro s
  rw [(perm_SourcesSort _).mem_iff]
  unfold appended
  rw [List.mem_flatMap]
  constructor
  · rintro ⟨s', hs', hmem⟩
    by_cases hw : env.GetWorkspaceNameFromSource s' = w
    · simp only [hw, if_true, List.mem_map, List.mem_filter, decide_eq_true_eq] at hmem
      obtain ⟨q, ⟨hq, hqp⟩, hss⟩ := hmem
      subst hss
      subst hqp
      exact ⟨hs', hw, hq⟩
    · simp [hw] at hmem
  · rintro ⟨hs, hw, hp⟩
    refine ⟨s, hs, ?_⟩
    simp [hw, hp]

/-- C8, as stated, fails: the config `twoKeys` has two plugin-type-keys, each with one
source of bucket ("main", "http") and of ordering key 1. A pass that ranges over "jwt"
first leaves the bucket as a, b; a pass over the same config that ranges over "opa" first
leaves it as b, a. -/
theorem Provision_range_order_counterexample :
    List.Perm twoKeysSwapped twoKeys ∧
      (mapKeys twoKeys).Nodup ∧
      bucket (Provision demoEnv twoKeys emptyApp).1.sourceMap "main" "http" =
        [⟨"a", ["http"], 1⟩, ⟨"b", ["http"], 1⟩] ∧
      bucket (Provision demoEnv twoKeysSwapped emptyApp).1.sourceMap "main" "http" =
        [⟨"b", ["http"], 1⟩, ⟨"a", ["http"], 1⟩] ∧
      bucket (Provision demoEnv twoKeys emptyApp).1.sourceMap "main" "http" ≠
        bucket (Provision demoEnv twoKeysSwapped emptyApp).1.sourceMap "main" "http" := by
  refine ⟨List.Perm.swap _ _ _, by decide, by decide, by decide, by decide⟩

/-- C8, amended: after `Provision`, every bucket `sourceMap[w][p]` is ordered by the
sources' ordering key, ascending; it holds what the bucket held when the loops over the
config were done; the sources of any one ordering key stand in it in the order in which
they were appended; two passes that process the same plugin configs in the same order
yield the same app, so the same order in every bucket; and two passes over one config in
different range orders yield buckets that hold the same sources. -/
theorem Provision_buckets_sorted_stable (env : Env) (config : List (String × List String))
    (a : App) (w p : String) :
    (bucket (Provision env config a).1.sourceMap w p).Pairwise
        (fun x y => x.priority ≤ y.priority) ∧
      List.Perm (bucket (Provision env config a).1.sourceMap w p)
        (bucket (provisionAll env config { a with sourceMap := [] }).sourceMap w p) ∧
      (∀ k : Int,
        (bucket (Provision env config a).1.sourceMap w p).filter
            (fun s => decide (s.priority = k)) =
          (bucket (provisionAll env config { a with sourceMap := [] }).sourceMap w p).filter
            (fun s => decide (s.priority = k))) ∧
      (∀ config', processed config' = processed config →
        Provision env config' a = Provision env config a) ∧
      (∀ config', List.Perm config' config →
        List.Perm (bucket (Provision env config' a).1.sourceMap w p)
          (bucket (Provision env config a).1.sourceMap w p)) := by
  refine ⟨?_, ?_, ?_, ?_, ?_⟩
  · rw [bucket_Provision]
    exact sorted_SourcesSort _
  · rw [bucket_Provision, bucket_provisionAll]
    exact perm_SourcesSort _
  · intro k
    rw [bucket_Provision, bucket_provisionAll]
    exact filter_SourcesSort _ k
  · intro config' h
    simp only [Provision, provisionAll_eq_foldl, h]
  · intro config' h
    rw [bucket_Provision, bucket_Provision]
    exact ((perm_SourcesSort _).trans (appended_perm env config config' h w p)).trans
      (perm_SourcesSort _).symm

/-- C9, as stated, fails: two loaded workspace declarations named "dev" leave "dev" twice in
the workspace list. -/
theorem Provision_workspaces_duplicate_counterexample :
    (Provision demoEnv [("workspace", ["dev", "dev"])] emptyApp).1.workspaces = ["dev", "dev"] ∧
      ¬ (Provision demoEnv [("workspace", ["dev", "dev"])] emptyApp).1.workspaces.Nodup := by
  refine ⟨by decide, by decide⟩

/-- C9, amended: the workspace list produced by `Provision` from an empty workspace list
holds every name other than "main" and "root" as many times as successfully loaded
workspace declarations carry it; so it is free of duplicates exactly when no two loaded
declarations carry the same such name. -/
theorem Provision_workspaces_multiplicity (env : Env) (config : List (String × List String))
    (logger : List LogEntry) (sourceMap : GoMap (GoMap (List Source))) :
    (∀ n : String, n ≠ "main" → n ≠ "root" →
        (Provision env config ⟨logger, sourceMap, []⟩).1.workspaces.count n =
          (declaredNames env config).count n) ∧
      ((Provision env config ⟨logger, sourceMap, []⟩).1.workspaces.Nodup ↔
        ((declaredNames env config).filter
          (fun n => decide (n ≠ "main" ∧ n ≠ "root"))).Nodup) := by
  have h := workspaces_Provision env config ⟨logger, sourceMap, []⟩
  simp only [List.nil_append] at h
  rw [h]
  refine ⟨?_, Iff.rfl⟩
  intro n h1 h2
  exact List.count_filter (by simp [h1, h2])

/-- C10: for a loaded plugin that exposes the workspace-name capability, whether or not it
also exposes the Source capability, the loop body of `Provision` leaves the source map and
the log as they were and appends the name to the workspace list unless the name is "main"
or "root"; and `Provision` over the config that holds this one plugin leaves an empty
source map. -/
theorem provisionEntry_workspace_wins (env : Env) (key c : String) (a : App) (t : Module)
    (name : String) (hload : env.LoadModuleByID key c = Except.ok t)
    (hws : t.workspace = some name) :
    (provisionEntry env key a c).sourceMap = a.sourceMap ∧
      (provisionEntry env key a c).logger = a.logger ∧
      (provisionEntry env key a c).workspaces =
        (if name = "main" ∨ name = "root" then a.workspaces else a.workspaces ++ [name]) ∧
      (Provision env [(key, [c])] a).1.sourceMap = [] := by
  have hstep : provisionEntry env key a c =
      (if name = "main" ∨ name = "root" then a
        else { a with workspaces := a.workspaces ++ [name] }) := by
    simp only [provisionEntry, hload, hws]
  have hstep' : provisionEntry env key { a with sourceMap := [] } c =
      (if name = "main" ∨ name = "root" then { a with sourceMap := [] }
        else { a with sourceMap := [], workspaces := a.workspaces ++ [name] }) := by
    simp only [provisionEntry, hload, hws]
  have hP : (Provision env [(key, [c])] a).1.sourceMap =
      sortAll (provisionEntry env key { a with sourceMap := [] } c).sourceMap := rfl
  rw [hP, hstep', hstep]
  by_cases hr : name = "main" ∨ name = "root" <;> simp [hr, sortAll, mapValues]

/-- Witness of C10: the module loaded for "hybrid"/"h1" is both a workspace declaration and
a Source. -/
theorem provisionEntry_workspace_wins_witness :
    demoEnv.LoadModuleByID "hybrid" "h1" = Except.ok ⟨some "h1", some ⟨"h1", ["http"], 0⟩⟩ ∧
      ((provisionEntry demoEnv "hybrid" emptyApp "h1").sourceMap = emptyApp.sourceMap ∧
      (provisionEntry demoEnv "hybrid" emptyApp "h1").logger = emptyApp.logger ∧
      (provisionEntry demoEnv "hybrid" emptyApp "h1").workspaces =
        (if "h1" = "main" ∨ "h1" = "root" then emptyApp.workspaces
          else emptyApp.workspaces ++ ["h1"]) ∧
      (Provision demoEnv [("hybrid", ["h1"])] emptyApp).1.sourceMap = []) :=
  ⟨rfl, provisionEntry_workspace_wins demoEnv "hybrid" "h1" emptyApp
    ⟨some "h1", some ⟨"h1", ["http"], 0⟩⟩ "h1" rfl rfl⟩

/-! ## Claims on `sc-poc/managers/configman/configloader.go` -/

/-- C6: `InitializeConfigLoader` returns an error and no loader for every configured adapter
name other than "file" and "k8s", and, whatever the adapter name, for every debounce
interval string that `time.ParseDuration` rejects (the error is the parser's); with the
adapter name "file" and an interval string that parses, it returns without error the
loader with the file adapter of the configured path and the parsed interval. -/
theorem InitializeConfigLoader_result {Adapter : Type} (env : InitEnv Adapter) :
    (env.GetString "config.adapter" ≠ "file" → env.GetString "config.adapter" ≠ "k8s" →
        ∃ e, InitializeConfigLoader env = Except.error e) ∧
      (∀ e, env.ParseDuration (env.GetString "config.debounce-interval") = Except.error e →
        InitializeConfigLoader env = Except.error e) ∧
      (∀ d, env.GetString "config.adapter" = "file" →
        env.ParseDuration (env.GetString "config.debounce-interval") = Except.ok d →
        InitializeConfigLoader env =
          Except.ok ⟨env.MakeFileAdapter (env.GetString "config.path"), d⟩) := by
  refine ⟨?_, ?_, ?_⟩
  · intro h1 h2
    unfold InitializeConfigLoader
    cases hp : env.ParseDuration (env.GetString "config.debounce-interval") with
    | error e => exact ⟨e, rfl⟩
    | ok d => exact ⟨"invalid adapter specified", by simp [h1, h2]⟩
  · intro e he
    simp [InitializeConfigLoader, he]
  · intro d hf hd
    simp [InitializeConfigLoader, hf, hd]

/-- Witness of C6: the adapter name "ftp" is refused, the interval "soon" is refused with
the adapter name "file", and "file" with "500ms" gives a loader. -/
theorem InitializeConfigLoader_result_witness :
    (∃ e, InitializeConfigLoader (demoInitEnv "ftp" "1s") = Except.error e) ∧
      InitializeConfigLoader (demoInitEnv "file" "soon") =
        Except.error "time: invalid duration" ∧
      InitializeConfigLoader (demoInitEnv "file" "500ms") = Except.ok ⟨"/config", 500000000⟩ :=
  ⟨(InitializeConfigLoader_result (demoInitEnv "ftp" "1s")).1 (by decide) (by decide),
    (InitializeConfigLoader_result (demoInitEnv "file" "soon")).2.1 _ rfl,
    (InitializeConfigLoader_result (demoInitEnv "file" "500ms")).2.2 _ rfl rfl⟩

/-- C7: when compiling the raw configuration fails, or serializing the compiled
configuration fails, `loadConfig` makes no activation call and the serving engine, which
holds the active configuration, is what it was; when both steps succeed, `loadConfig`
makes exactly one activation call, with the serialized configuration and the flag false. -/
theorem loadConfig_activation {ConfigType CaddyConfig Engine : Type}
    (env : ReloadEnv ConfigType CaddyConfig Engine) (cfg : ConfigType) (w : World Engine) :
    ((∃ e, env.PrepareConfig cfg = Except.error e) →
        (loadConfig env cfg w).loadCalls = w.loadCalls ∧
          (loadConfig env cfg w).engine = w.engine) ∧
      (∀ c e, env.PrepareConfig cfg = Except.ok c → env.MarshalIndent c = Except.error e →
        (loadConfig env cfg w).loadCalls = w.loadCalls ∧
          (loadConfig env cfg w).engine = w.engine) ∧
      (∀ c raw, env.PrepareConfig cfg = Except.ok c → env.MarshalIndent c = Except.ok raw →
        (loadConfig env cfg w).loadCalls = w.loadCalls ++ [(raw, false)] ∧
          (loadConfig env cfg w).engine = env.Load raw false w.engine) := by
  refine ⟨?_, ?_, ?_⟩
  · rintro ⟨e, he⟩
    simp [loadConfig, he]
  · intro c e hc he
    simp [loadConfig, hc, he]
  · intro c raw hc hr
    simp [loadConfig, hc, hr]

/-- Witness of C7: "broken" does not compile, "cyclic" does not serialize, "fresh" is
activated once. -/
theorem loadConfig_activation_witness :
    ((loadConfig demoReloadEnv "broken" demoWorld).loadCalls = [] ∧
        (loadConfig demoReloadEnv "broken" demoWorld).engine = "old") ∧
      ((loadConfig demoReloadEnv "cyclic" demoWorld).loadCalls = [] ∧
        (loadConfig demoReloadEnv "cyclic" demoWorld).engine = "old") ∧
      ((loadConfig demoReloadEnv "fresh" demoWorld).loadCalls = [("json:fresh", false)] ∧
        (loadConfig demoReloadEnv "fresh" demoWorld).engine = "json:fresh") :=
  ⟨(loadConfig_activation demoReloadEnv "broken" demoWorld).1 ⟨"invalid config", rfl⟩,
    (loadConfig_activation demoReloadEnv "cyclic" demoWorld).2.1 "cyclic"
      "json: unsupported value" rfl rfl,
    (loadConfig_activation demoReloadEnv "fresh" demoWorld).2.2 "fresh" "json:fresh"
      rfl rfl⟩

end SpaceCloud
